import Mathlib

/-!
Verification development for the oraculum_core worker
(`python_bridge/inference_worker.py` and the helper scripts).

The Python source is shallowly embedded: pure helpers become Lean
functions on `List Char` / `String`, the mutable process state
(opinion graph, vector store, document tables) is threaded explicitly,
and the external collaborators (network search providers, the
embedding / generation capability, pypdf text extraction) are passed
in as function parameters, exactly at the interface the worker uses.
Machine floats that only ever hold -1.0 / 0.0 / 1.0 or integral scores
are modelled as `Int`.
-/

namespace Oraculum

/-! ## Python string primitives

Character-level models of the Python string operations the worker
uses: `str.split()` (whitespace split discarding empties),
`" ".join`, `str.lower()`, `str.strip()`, slicing, and substring
containment (`"x" in s`). All are on `List Char`; `String` wrappers
appear where the worker-level functions are defined. -/

/-- Python `str.isspace` characters relevant to `str.split()` (ASCII
whitespace; the worker only ever handles ASCII payload text). -/
def pyIsSpace (c : Char) : Bool :=
  c = ' ' || c = '\t' || c = '\n' || c = '\r' || c = '\x0b' || c = '\x0c'

/-- Word character for the regex boundary `\b` (ASCII `\w`). -/
def isWordChar (c : Char) : Bool :=
  c.isAlphanum || c = '_'

/-- Python `str.lower()` on the character list (ASCII). -/
def lowerL (l : List Char) : List Char := l.map Char.toLower

/-- Boolean starts-with test on character lists. -/
def startsL : List Char → List Char → Bool
  | [], _ => true
  | _ :: _, [] => false
  | a :: as, b :: bs => a == b && startsL as bs

/-- Python `needle in hay` substring containment. -/
def containsL (needle : List Char) : List Char → Bool
  | [] => startsL needle []
  | c :: cs => startsL needle (c :: cs) || containsL needle cs

/-- Python `str.split()`: split on whitespace runs, discarding empty
pieces. Structurally recursive on a fuel that bounds the remaining
length (each step consumes at least one character), so that concrete
inputs evaluate inside the kernel. -/
def pySplitF : Nat → List Char → List (List Char)
  | _, [] => []
  | 0, _ :: _ => []
  | fuel + 1, c :: cs =>
    if pyIsSpace c then pySplitF fuel cs
    else (c :: cs.takeWhile (fun d => !pyIsSpace d)) ::
      pySplitF fuel (cs.dropWhile (fun d => !pyIsSpace d))

/-- `str.split()` with the canonical fuel. -/
def pySplitWs (l : List Char) : List (List Char) := pySplitF l.length l

/-- Python `" ".join(ws)`. -/
def joinSpace : List (List Char) → List Char
  | [] => []
  | w :: ws =>
    match ws with
    | [] => w
    | _ :: _ => w ++ ' ' :: joinSpace ws

/-- Step 4 of the relaxation: `" ".join(query.split())`. -/
def collapseWs (l : List Char) : List Char := joinSpace (pySplitWs l)

/-- Python `str.strip()`. -/
def stripL (l : List Char) : List Char :=
  ((l.dropWhile pyIsSpace).reverse.dropWhile pyIsSpace).reverse

/-! ## The regex deletions of `clean_query_step`

`re.sub(pat, '', s)` scans left to right, deleting each leftmost
non-overlapping match and resuming right after it; `\b` boundaries
are judged against the original text, so the scanner carries the
character preceding the current position (which may lie inside a
previously deleted match). None of the three patterns can match the
empty string, so every match consumes at least one character. -/

/-- `\b` holds before the current position. -/
def bdryBefore : Option Char → Bool
  | none => true
  | some p => !isWordChar p

/-- `\b` holds after a match ending just before `l`. -/
def bdryAfterL : List Char → Bool
  | [] => true
  | a :: _ => !isWordChar a

/-- Case-insensitive starts-with against a lowercase literal. -/
def ciStarts (u : List Char) (l : List Char) : Bool := startsL u (lowerL l)

/-- The unit alternatives of `(ml|g|kg|L|oz)` in regex alternation
order, lowercased (the pattern is compiled with `re.IGNORECASE`). -/
def unitAlts : List (List Char) :=
  [['m', 'l'], ['g'], ['k', 'g'], ['l'], ['o', 'z']]

/-- First unit alternative that matches at `rest` and is followed by a
word boundary (regex alternation backtracks into the next alternative
when the trailing boundary fails). Returns its length. -/
def firstUnit (rest : List Char) : Option Nat :=
  ((unitAlts.filter
      (fun u => ciStarts u rest && bdryAfterL (rest.drop u.length))).head?).map
    List.length

/-- Matcher for pattern 1, `\b\d+(ml|g|kg|L|oz)\b` (IGNORECASE), at the
current position given the preceding original character. The greedy
`\d+` never has to backtrack here: a shortened digit run leaves a
digit as the next character, which no unit alternative starts with. -/
def matchUnit (prev : Option Char) (l : List Char) : Option Nat :=
  if bdryBefore prev then
    let ds := l.takeWhile Char.isDigit
    if ds.isEmpty then none
    else
      match firstUnit (l.drop ds.length) with
      | some n => some (ds.length + n)
      | none => none
  else none

/-- Lazy parenthetical `\(.*?\)`: `.` does not cross a newline, and the
lazy body stops at the first closing parenthesis. -/
def parenMatch : List Char → Option Nat
  | '(' :: rest =>
    let inside := rest.takeWhile (fun c => !(c = ')' || c = '\n'))
    match rest.drop inside.length with
    | ')' :: _ => some (inside.length + 2)
    | _ => none
  | _ => none

/-- The literal `pack of ` (IGNORECASE), lowercased. -/
def packLit : List Char := ['p', 'a', 'c', 'k', ' ', 'o', 'f', ' ']

/-- `pack of \d+` (IGNORECASE). -/
def packMatch (l : List Char) : Option Nat :=
  if ciStarts packLit l then
    let ds := (l.drop 8).takeWhile Char.isDigit
    if ds.isEmpty then none else some (8 + ds.length)
  else none

/-- A plain case-insensitive literal alternative. -/
def litMatch (w : List Char) (l : List Char) : Option Nat :=
  if ciStarts w l then some w.length else none

/-- Matcher for pattern 2, `\(.*?\)|pack of \d+|official|review`
(IGNORECASE); alternatives are tried in regex order and carry no word
boundaries. -/
def matchNoise (_prev : Option Char) (l : List Char) : Option Nat :=
  match parenMatch l with
  | some n => some n
  | none =>
    match packMatch l with
    | some n => some n
    | none =>
      match litMatch ['o', 'f', 'f', 'i', 'c', 'i', 'a', 'l'] l with
      | some n => some n
      | none => litMatch ['r', 'e', 'v', 'i', 'e', 'w'] l

/-- The stop-word alternatives of pattern 3 in regex alternation
order, lowercased. -/
def stopAlts : List (List Char) :=
  [['f', 'o', 'r'], ['w', 'i', 't', 'h'], ['a', 'n', 'd'],
    ['f', 'l', 'a', 'v', 'o', 'r'], ['f', 'l', 'a', 'v', 'o', 'u', 'r'],
    ['v', 'a', 'r', 'i', 'a', 'n', 't']]

/-- Matcher for pattern 3,
`\b(for|with|and|flavor|flavour|variant)\b` (IGNORECASE). -/
def matchStop (prev : Option Char) (l : List Char) : Option Nat :=
  if bdryBefore prev then
    ((stopAlts.filter
        (fun w => ciStarts w l && bdryAfterL (l.drop w.length))).head?).map
      List.length
  else none

/-- Generic `re.sub(pat, '', s)` scanner over a matcher that reports
match lengths; `prev` is the character preceding the current position
in the original text (also when it was part of a deleted match). A
reported match length of zero is ignored (none of the matchers above
ever report one). -/
def subDelF (mf : Option Char → List Char → Option Nat) :
    Nat → Option Char → List Char → List Char
  | _, _, [] => []
  | 0, _, _ :: _ => []
  | fuel + 1, prev, c :: cs =>
    match mf prev (c :: cs) with
    | some (n + 1) => subDelF mf fuel (some ((c :: cs).getD n c)) (cs.drop n)
    | _ => c :: subDelF mf fuel (some c) cs

/-- The scanner with the canonical fuel. -/
def subDel (mf : Option Char → List Char → Option Nat)
    (prev : Option Char) (l : List Char) : List Char :=
  subDelF mf l.length prev l

/-- The four rewriting steps of `clean_query_step`: the three regex
deletions followed by whitespace collapse. -/
def regexPass (q0 : List Char) : List Char :=
  collapseWs (subDel matchStop none (subDel matchNoise none
    (subDel matchUnit none q0)))

/-- `clean_query_step` from `inference_worker.py` (the identical
function also appears in `test_robustness.py`): the three regex
deletions, whitespace collapse, and the chop-last-token fallback when
nothing changed. -/
def cleanQueryStepL (q0 : List Char) : List Char :=
  if regexPass q0 = q0 then
    if 1 < (pySplitWs (regexPass q0)).length then
      joinSpace (pySplitWs (regexPass q0)).dropLast
    else regexPass q0
  else regexPass q0

/-- String-level `clean_query_step`. -/
def cleanQueryStep (q : String) : String := String.mk (cleanQueryStepL q.data)

/-! ## String helpers at the `String` level -/

/-- Python `str.lower()`. -/
def strLower (s : String) : String := String.mk (lowerL s.data)

/-- Python slice `s[:n]`. -/
def strTake (n : Nat) (s : String) : String := String.mk (s.data.take n)

/-- Python slice `s[n:]`. -/
def strDrop (n : Nat) (s : String) : String := String.mk (s.data.drop n)

/-- Python `sub in hay`. -/
def containsS (hay sub : String) : Bool := containsL sub.data hay.data

/-- Python `str.strip()`. -/
def strStrip (s : String) : String := String.mk (stripL s.data)

/-- Python `str.split()` at the `String` level. -/
def pySplitS (s : String) : List String :=
  (pySplitWs s.data).map String.mk

/-- Python `str.upper()` (ASCII). -/
def strUpper (s : String) : String := String.mk (s.data.map Char.toUpper)

/-- Sum of Python `ord(c)` over a string (code points). -/
def sumCharCodes (s : String) : Nat := (s.data.map Char.toNat).sum

/-! ## The opinion graph (`memory_graph`, a `networkx.DiGraph`)

A directed graph with insertion-ordered nodes and edges.
`add_node` on an existing name keeps its position; `add_edge` on an
existing `(src, dst)` pair overwrites the edge attributes in place
(at most one edge per ordered pair, exactly as in a `DiGraph`), and
`predecessors(t)` iterates the sources of in-edges of `t` in edge
insertion order. Edge attributes are `weight` (only ever -1.0 / 0.0
/ 1.0 in the worker, modelled as `Int`) and `content`. -/

structure GEdge where
  src : String
  dst : String
  weight : Int
  content : String
deriving DecidableEq, Repr

structure MemGraph where
  nodes : List String
  edges : List GEdge
deriving DecidableEq, Repr

/-- The empty graph the worker starts with. -/
def emptyGraph : MemGraph := { nodes := [], edges := [] }

def hasNodeG (g : MemGraph) (n : String) : Bool := g.nodes.contains n

/-- `add_node` (attribute-only updates keep insertion position). -/
def addNodeG (g : MemGraph) (n : String) : MemGraph :=
  if g.nodes.contains n then g else { g with nodes := g.nodes ++ [n] }

/-- Does edge `e` connect `a` to `t`? -/
def sameKey (a t : String) (e : GEdge) : Bool := e.src == a && e.dst == t

/-- `add_edge` attribute overwrite: replace the existing `(src, dst)`
edge in place, else append. -/
def upsertEdge (e : GEdge) : List GEdge → List GEdge
  | [] => [e]
  | f :: fs => if sameKey e.src e.dst f then e :: fs else f :: upsertEdge e fs

/-- `add_edge` (also inserts missing endpoint nodes). -/
def addEdgeG (g : MemGraph) (e : GEdge) : MemGraph :=
  let g1 := addNodeG (addNodeG g e.src) e.dst
  { g1 with edges := upsertEdge e g1.edges }

/-- `get_edge_data` for the unique `(a, t)` edge. -/
def findEdge (g : MemGraph) (a t : String) : Option GEdge :=
  g.edges.find? (sameKey a t)

/-- `_update_graph_memory` from `inference_worker.py`: keyword scan on
the case-folded response, then node and edge upserts. The body is
wrapped in a swallow-all handler in the source; none of its
operations can fail, so the model is the plain state update. -/
def updateGraphMemory (g : MemGraph) (agentName responseText topic : String) :
    MemGraph :=
  let lower := strLower responseText
  let sentiment : Int :=
    if containsS lower "love" || containsS lower "great" then 1
    else if containsS lower "hate" || containsS lower "bad" then -1
    else 0
  let g1 := addNodeG g agentName
  let g2 := addNodeG g1 topic
  addEdgeG g2
    { src := agentName, dst := topic, weight := sentiment,
      content := strTake 120 responseText }

/-- The sentiment rule exactly as claim C4 words it: the six-element
positive and negative keyword sets. Stated from the claim, for
comparison against the code. -/
def claimSentiment (responseText : String) : Int :=
  let lower := strLower responseText
  if ["love", "great", "excellent", "buy", "amazing", "yes"].any
      (fun k => containsS lower k) then 1
  else if ["hate", "bad", "terrible", "avoid", "expensive", "no"].any
      (fun k => containsS lower k) then -1
  else 0

/-- The sentiment rule the code actually implements (amended C4):
positive keywords {love, great}, negative keywords {hate, bad},
substring scan on the case-folded text, positive checked first. -/
def amendedSentiment (responseText : String) : Int :=
  if containsS (strLower responseText) "love" ||
      containsS (strLower responseText) "great" then 1
  else if containsS (strLower responseText) "hate" ||
      containsS (strLower responseText) "bad" then -1
  else 0

/-- The formatted line `get_sharded_context` builds per peer opinion. -/
def opinionLine (peer content : String) : String :=
  "- " ++ peer ++ ": \"" ++ content ++ "\""

/-- The `all_opinions` list of `get_sharded_context`: formatted
opinions of every predecessor of `topic` other than the requester, in
edge insertion order. -/
def allOpinions (g : MemGraph) (agentName topic : String) : List String :=
  (g.edges.filter (fun e => e.dst == topic)).filterMap
    (fun e => if e.src == agentName then none
      else some (opinionLine e.src e.content))

/-- `get_sharded_context` from `inference_worker.py`. -/
def getShardedContext (g : MemGraph) (agentName topic : String) : String :=
  if !hasNodeG g topic then ""
  else
    let allOps := allOpinions g agentName topic
    if allOps.isEmpty then ""
    else
      let shardIndex := sumCharCodes agentName % 3
      let shardSize := max 1 (allOps.length / 2)
      let start := shardIndex * shardSize % allOps.length
      let selected := (allOps.drop start).take 3
      "\n[WHAT OTHERS ARE SAYING - YOUR FEED]:\n" ++
        String.intercalate "\n" selected ++ "\n"

/-- The concrete graph for the sharding witness: six agents other
than AAA give opinions on one topic, built through the update
operation itself. -/
def sixOpinionGraph : MemGraph :=
  updateGraphMemory (updateGraphMemory (updateGraphMemory
    (updateGraphMemory (updateGraphMemory (updateGraphMemory emptyGraph
      "B" "opinion one" "T") "C" "opinion two" "T") "D" "opinion three" "T")
        "E" "opinion four" "T") "F" "opinion five" "T") "G" "opinion six" "T"

/-! ## Federated research and fact check (tools 1 and 2)

External providers appear as oracles at exactly the interface the
code consumes. For the Reddit search, `none` stands for a request
exception or a non-200 status (both fall through to the relaxation
step) and `some posts` for a 200 response with the parsed list of
post titles. For the Wikipedia call, `none` is an exception,
`some none` a response whose pages carry no extract, and
`some (some ext)` the first extract found. For the OpenFoodFacts
call, `none` is an exception (request or JSON decode), `some none` an
empty product list, and `some (some p)` the first product. -/

structure ResearchOracles where
  reddit : String → Option (List String)
  wiki : String → Option (Option String)

/-- The Reddit retry loop of `perform_federated_research`: up to
three attempts, collecting the titles longer than 15 characters from
the first response with a nonempty post list, stopping early when
relaxation reaches a fixed point. -/
def redditLoop (oc : ResearchOracles) : Nat → String → List String
  | 0, _ => []
  | n + 1, q =>
    match oc.reddit q with
    | some posts =>
      if !posts.isEmpty then posts.filter (fun t => 15 < t.length)
      else
        let nq := cleanQueryStep q
        if nq = q then [] else redditLoop oc n nq
    | none =>
      let nq := cleanQueryStep q
      if nq = q then [] else redditLoop oc n nq

/-- The no-result sentinel of `perform_federated_research`. -/
def noFootprintAlert : String :=
  "SYSTEM_ALERT: No digital footprint found. The product might be too new or niche."

/-- First-occurrence deduplication with an accumulator of already
seen strings. -/
def dedupFirstAux (seen : List String) : List String → List String
  | [] => []
  | x :: xs =>
    if x ∈ seen then dedupFirstAux seen xs
    else x :: dedupFirstAux (x :: seen) xs

/-- `list(set(voices))`: the iteration order of a Python `set` is
implementation-defined, so the model fixes first-occurrence order,
one admissible realization; the claims only rely on the result being
duplicate-free. -/
def dedupFirst (l : List String) : List String := dedupFirstAux [] l

/-- `perform_federated_research` from `inference_worker.py`. The
`brand_guess = topic.split()[0]` indexing sits outside every handler
and raises `IndexError` when the topic has no tokens, which the model
surfaces as `Except.error`; the unused `audience_context` parameter
is kept for fidelity. -/
def performFederatedResearch (oc : ResearchOracles)
    (topic _audienceContext : String) : Except String (List String) :=
  let voices := redditLoop oc 3 topic
  match pySplitS topic with
  | [] => Except.error "IndexError: list index out of range"
  | brandGuess :: _ =>
    let voices :=
      match oc.wiki brandGuess with
      | some (some ext) =>
        voices ++ ["[Context] Brand Background: " ++ strTake 300 ext ++ "..."]
      | _ => voices
    if voices.isEmpty then Except.ok [noFootprintAlert]
    else Except.ok ((dedupFirst voices).take 15)

/-- The fields of the first OpenFoodFacts product the code reads,
each optional exactly like a Python `dict.get` with a default. -/
structure OffProduct where
  productName : Option String
  brands : Option String
  nutriscoreGrade : Option String
  ingredientsTags : List String

structure FactOracle where
  off : String → Option (Option OffProduct)

/-- The fixed-field summary `perform_fact_check` formats. -/
def formatSpecs (p : OffProduct) : String :=
  "Product: " ++ p.productName.getD "Unknown" ++ "\n" ++
    "Brand: " ++ p.brands.getD "Unknown" ++ "\n" ++
    "NutriScore: " ++ strUpper (p.nutriscoreGrade.getD "?") ++ "\n" ++
    "Ingredients: " ++ String.intercalate ", " (p.ingredientsTags.take 5) ++
    "..."

/-- The no-result sentinel of `perform_fact_check`. -/
def offAlert : String :=
  "SYSTEM_ALERT: No structured data found in Open Databases."

/-- The OpenFoodFacts retry loop of `perform_fact_check`: up to three
attempts, formatting the first product found, relaxing otherwise. -/
def factLoop (oc : FactOracle) : Nat → String → Option String
  | 0, _ => none
  | n + 1, q =>
    match oc.off q with
    | some (some p) => some (formatSpecs p)
    | _ =>
      let nq := cleanQueryStep q
      if nq = q then none else factLoop oc n nq

/-- `perform_fact_check` from `inference_worker.py`: every fallible
operation sits inside a swallow-all handler, so the function is
total and degrades to the sentinel. -/
def performFactCheck (oc : FactOracle) (query : String) : String :=
  match factLoop oc 3 query with
  | some s => s
  | none => offAlert

/-- Concrete all-failing oracles for the C8 instances. -/
def failingResearchOracles : ResearchOracles :=
  { reddit := fun _ => none, wiki := fun _ => none }

/-- Concrete all-failing OpenFoodFacts oracle. -/
def failingFactOracle : FactOracle := { off := fun _ => none }

/-! ## MD5 (`hashlib.md5(payload.encode()).hexdigest()`)

A complete executable MD5 over byte lists, with 32-bit words as
`Nat` reduced modulo `2 ^ 32`. The worker uses it only to derive the
content-addressed document table name from the base64 pdf payload
string (the payload is ASCII, so `encode()` is the code-point
bytes). -/

/-- Reduce modulo `2 ^ 32`. -/
def m32 (x : Nat) : Nat := x % 4294967296

/-- 32-bit left rotation of a value below `2 ^ 32`. -/
def rotl32 (x s : Nat) : Nat := m32 (x * 2 ^ s + x / 2 ^ (32 - s))

/-- The 64 MD5 round constants `floor(abs(sin(i + 1)) * 2 ^ 32)`. -/
def md5K : List Nat :=
  [3614090360, 3905402710, 606105819, 3250441966, 4118548399, 1200080426,
   2821735955, 4249261313, 1770035416, 2336552879, 4294925233, 2304563134,
   1804603682, 4254626195, 2792965006, 1236535329, 4129170786, 3225465664,
   643717713, 3921069994, 3593408605, 38016083, 3634488961, 3889429448,
   568446438, 3275163606, 4107603335, 1163531501, 2850285829, 4243563512,
   1735328473, 2368359562, 4294588738, 2272392833, 1839030562, 4259657740,
   2763975236, 1272893353, 4139469664, 3200236656, 681279174, 3936430074,
   3572445317, 76029189, 3654602809, 3873151461, 530742520, 3299628645,
   4096336452, 1126891415, 2878612391, 4237533241, 1700485571, 2399980690,
   4293915773, 2240044497, 1873313359, 4264355552, 2734768916, 1309151649,
   4149444226, 3174756917, 718787259, 3951481745]

/-- The per-round left-rotation amounts. -/
def md5S : List Nat :=
  [7, 12, 17, 22, 7, 12, 17, 22, 7, 12, 17, 22, 7, 12, 17, 22,
   5, 9, 14, 20, 5, 9, 14, 20, 5, 9, 14, 20, 5, 9, 14, 20,
   4, 11, 16, 23, 4, 11, 16, 23, 4, 11, 16, 23, 4, 11, 16, 23,
   6, 10, 15, 21, 6, 10, 15, 21, 6, 10, 15, 21, 6, 10, 15, 21]

/-- The round mixing function (F, G, H, I by round quarter); the
bitwise complement of a value below `2 ^ 32` is subtraction from
`2 ^ 32 - 1`. -/
def md5F (i b c d : Nat) : Nat :=
  if i < 16 then (b &&& c) ||| ((4294967295 - b) &&& d)
  else if i < 32 then (d &&& b) ||| ((4294967295 - d) &&& c)
  else if i < 48 then b ^^^ c ^^^ d
  else c ^^^ (b ||| (4294967295 - d))

/-- The message-word index per round. -/
def md5G (i : Nat) : Nat :=
  if i < 16 then i
  else if i < 32 then (5 * i + 1) % 16
  else if i < 48 then (3 * i + 5) % 16
  else 7 * i % 16

/-- One MD5 round on the register quadruple. -/
def md5Step (M : List Nat) (s : Nat × Nat × Nat × Nat) (i : Nat) :
    Nat × Nat × Nat × Nat :=
  match s with
  | (a, b, c, d) =>
    let f := m32 (md5F i b c d + a + md5K.getD i 0 + M.getD (md5G i) 0)
    (d, m32 (b + rotl32 f (md5S.getD i 0)), b, c)

/-- One 16-word block: 64 rounds then the feed-forward addition. -/
def md5Block (s0 : Nat × Nat × Nat × Nat) (M : List Nat) :
    Nat × Nat × Nat × Nat :=
  match s0, (List.range 64).foldl (md5Step M) s0 with
  | (a0, b0, c0, d0), (a, b, c, d) =>
    (m32 (a0 + a), m32 (b0 + b), m32 (c0 + c), m32 (d0 + d))

/-- `k` little-endian bytes of `v`. -/
def leBytes : Nat → Nat → List Nat
  | 0, _ => []
  | k + 1, v => v % 256 :: leBytes k (v / 256)

/-- MD5 padding: `0x80`, zeros to 56 mod 64, then the 64-bit
little-endian bit length. -/
def md5Pad (msg : List Nat) : List Nat :=
  msg ++ [128] ++ List.replicate ((119 - msg.length % 64) % 64) 0 ++
    leBytes 8 (8 * msg.length)

/-- Group bytes into little-endian 32-bit words. -/
def toWords : List Nat → List Nat
  | b0 :: b1 :: b2 :: b3 :: rest =>
    (b0 + 256 * (b1 + 256 * (b2 + 256 * b3))) :: toWords rest
  | _ => []

/-- Split into 64-byte blocks (fueled; each step consumes at least
one byte, so the byte count is enough fuel). -/
def toBlocksF : Nat → List Nat → List (List Nat)
  | _, [] => []
  | 0, _ :: _ => []
  | fuel + 1, b :: bs => ((b :: bs).take 64) :: toBlocksF fuel ((b :: bs).drop 64)

/-- The MD5 initial register values. -/
def md5Init : Nat × Nat × Nat × Nat :=
  (1732584193, 4023233417, 2562383102, 271733878)

/-- MD5 of a byte list, as the final register quadruple. -/
def md5Bytes (msg : List Nat) : Nat × Nat × Nat × Nat :=
  let padded := md5Pad msg
  (toBlocksF padded.length padded).foldl
    (fun st blk => md5Block st (toWords blk)) md5Init

/-- One lowercase hex digit. -/
def hexDigit (n : Nat) : Char :=
  if n < 10 then Char.ofNat (48 + n) else Char.ofNat (87 + n)

/-- Two hex digits of a byte. -/
def byteHex (b : Nat) : List Char := [hexDigit (b / 16), hexDigit (b % 16)]

/-- A 32-bit word as eight hex digits, little-endian byte order. -/
def wordHexLE (w : Nat) : List Char :=
  byteHex (w % 256) ++ byteHex (w / 256 % 256) ++ byteHex (w / 65536 % 256) ++
    byteHex (w / 16777216 % 256)

/-- `hashlib.md5(bytes).hexdigest()`. -/
def md5Hex (msg : List Nat) : String :=
  match md5Bytes msg with
  | (a, b, c, d) =>
    String.mk (wordHexLE a ++ wordHexLE b ++ wordHexLE c ++ wordHexLE d)

/-- `str.encode()` for the ASCII strings the worker hashes. -/
def asciiBytes (s : String) : List Nat := s.data.map Char.toNat

/-- The content-addressed document table name:
`"doc_" + md5(pdf_b64.encode()).hexdigest()`. Note the hash is taken
over the base64 payload text, not over the decoded bytes. -/
def docTableName (pdfB64 : String) : String :=
  "doc_" ++ md5Hex (asciiBytes pdfB64)

/-! ## Base64 decoding (`base64.b64decode`, default validation)

Needed to state what the raw document bytes of a payload are.
Python discards characters outside the alphabet, requires a length
that is a multiple of four after the discard, accepts `=` padding at
the end, and ignores non-canonical trailing bits of the final
group — all mirrored here. -/

/-- Value of a base64 alphabet character. -/
def b64Val (c : Char) : Option Nat :=
  if 'A' ≤ c ∧ c ≤ 'Z' then some (c.toNat - 65)
  else if 'a' ≤ c ∧ c ≤ 'z' then some (c.toNat - 71)
  else if '0' ≤ c ∧ c ≤ '9' then some (c.toNat + 4)
  else if c = '+' then some 62
  else if c = '/' then some 63
  else none

/-- Decode four-character groups. -/
def decodeGroups : List Char → Option (List Nat)
  | [] => some []
  | c1 :: c2 :: c3 :: c4 :: rest =>
    match b64Val c1, b64Val c2 with
    | some v1, some v2 =>
      if c3 = '=' then
        if c4 = '=' ∧ rest = [] then some [v1 * 4 + v2 / 16] else none
      else
        match b64Val c3 with
        | some v3 =>
          if c4 = '=' then
            if rest = [] then
              some [v1 * 4 + v2 / 16, v2 % 16 * 16 + v3 / 4]
            else none
          else
            match b64Val c4 with
            | some v4 =>
              (decodeGroups rest).map
                (fun bs => (v1 * 4 + v2 / 16) :: (v2 % 16 * 16 + v3 / 4) ::
                  (v3 % 4 * 64 + v4) :: bs)
            | none => none
        | none => none
    | _, _ => none
  | _ => none

/-- `base64.b64decode` on a payload string; `none` models the raised
`binascii.Error`. -/
def pyB64decode (s : String) : Option (List Nat) :=
  decodeGroups (s.data.filter (fun c => (b64Val c).isSome || c = '='))

/-! ## Vector store, worker state, oracles

The persisted store is LanceDB. A similarity search with `limit(k)`
returns the `k` nearest stored rows by vector distance with no
threshold, so it is empty exactly when the table is empty; the model
sorts by squared Euclidean distance and takes `k`. Embedding vectors
are value lists (`Int` components stand for the float coordinates;
no claim depends on their arithmetic). The embedding and generation
capability is an oracle: `embed` is `SentenceTransformer.encode` on
a list of texts (one call per invocation, also for a batch), `gen`
is the `generate` call on the assembled prompt with `max_tokens` and
`temperature`; `Except.error` is a raised exception. The optional
image payload of a `generate` request only decorates this single
generation call and touches none of the claims, so it is not
modelled. -/

/-- A memory-bank record as written by the fallback write-back. -/
structure KRecord where
  text : String
  source : String
  category : String
  score : Int
  date : String
  vector : List Int
deriving DecidableEq, Repr

/-- A per-document table row `{vector, text}`. -/
structure DocRow where
  vector : List Int
  text : String
deriving DecidableEq, Repr

/-- A named document table. -/
structure DocTable where
  name : String
  rows : List DocRow
deriving DecidableEq, Repr

/-- Squared Euclidean distance between vectors. -/
def sqDist (u v : List Int) : Int :=
  ((u.zip v).map (fun p => (p.1 - p.2) * (p.1 - p.2))).sum

/-- Stable insertion by distance to the query vector. -/
def insertByDist (qv : List Int) (keyOf : α → List Int) (x : α) :
    List α → List α
  | [] => [x]
  | y :: ys =>
    if sqDist qv (keyOf x) < sqDist qv (keyOf y) then x :: y :: ys
    else y :: insertByDist qv keyOf x ys

/-- Stable sort by distance to the query vector. -/
def sortByDist (qv : List Int) (keyOf : α → List Int) : List α → List α
  | [] => []
  | x :: xs => insertByDist qv keyOf x (sortByDist qv keyOf xs)

/-- `table.search(q_vec).limit(k)`: the `k` nearest rows. -/
def searchTopK (k : Nat) (qv : List Int) (keyOf : α → List Int)
    (rows : List α) : List α :=
  (sortByDist qv keyOf rows).take k

/-- The worker process state: the opinion graph, the optional
long-lived memory-bank table, and the document tables. -/
structure WorkerState where
  graph : MemGraph
  memoryBank : Option (List KRecord)
  docTables : List DocTable
deriving Repr

/-- `db.table_names()`. -/
def tableNames (st : WorkerState) : List String :=
  (match st.memoryBank with
    | some _ => ["memory_bank"]
    | none => []) ++ st.docTables.map DocTable.name

/-- `db.open_table` for a document table. -/
def lookupTable (st : WorkerState) (name : String) : Option DocTable :=
  st.docTables.find? (fun t => t.name == name)

/-- The compute capability behind the gate. -/
structure ComputeOracle where
  embed : List String → Except String (List (List Int))
  gen : String → Nat → Int → Except String String

/-- One result of the live web search. -/
structure WebHit where
  title : String
  body : String
deriving DecidableEq, Repr

/-- The DDGS live search: `list(ddgs.text(q, max_results=4))`;
`Except.error` is a raised exception. -/
structure WebOracle where
  ddgsText : String → Except String (List WebHit)

/-- A JSON response body, one constructor per payload field the
worker emits. -/
inductive RespBody where
  | dataList (l : List String)
  | researchData (l : List String)
  | factSheet (s : String)
  | genText (t : String)
  | errMsg (m : String)
deriving DecidableEq, Repr

/-- A task-level JSON response envelope. -/
structure Response where
  status : String
  body : RespBody
deriving DecidableEq, Repr

/-- The error envelope printed by the outer exception handler of the
main loop. -/
def errResponse (m : String) : Response :=
  { status := "error", body := RespBody.errMsg m }

/-- A success envelope. -/
def okResponse (b : RespBody) : Response :=
  { status := "success", body := b }

/-- Counting instrumentation around the compute capability (the
claims C1, C2, C6 and C9 measure these; they do not influence the
computed responses or state). -/
structure Instr where
  embedCalls : Nat
  genCalls : Nat
  usedFallback : Bool
deriving DecidableEq, Repr

/-- A processed request step: response, next state, instrumentation. -/
structure StepOut where
  resp : Response
  state : WorkerState
  instr : Instr
deriving Repr

/-! ## The `query_memory` branch -/

/-- The labelled live record text. -/
def liveText (h : WebHit) : String :=
  "[LIVE WEB] " ++ h.title ++ ": " ++ h.body

/-- Python truthiness of the `knowledge_table` variable: `None` is
falsy, and a LanceDB `LanceTable` defines `__len__` (its row count),
so an existing-but-empty table is falsy as well. Every
`if knowledge_table:` guard of the branch tests this, not mere
existence. -/
def bankTruthy : Option (List KRecord) → Bool
  | none => false
  | some bank => !bank.isEmpty

/-- The write-back loop body of the live fallback: per hit, append
the labelled text to the results and, when a store exists, embed it
for the write-back batch. An embedding failure aborts the loop (the
exception jumps to the handler, which appends the failure message),
keeping the texts gathered so far and skipping the store write.
Returns (result additions, write-back batch, embed attempts,
aborted?). -/
def writeBackLoop (co : ComputeOracle) (now : String) (bankPresent : Bool) :
    List WebHit → List String × List KRecord × Nat × Bool
  | [] => ([], [], 0, false)
  | hit :: rest =>
    let text := liveText hit
    if bankPresent then
      match co.embed [text] with
      | Except.error e => ([text, "Web Search Failed: " ++ e], [], 1, true)
      | Except.ok vs =>
        match writeBackLoop co now bankPresent rest with
        | (radds, nd, ec, fl) =>
          (text :: radds,
            (⟨text, "live_ddg", "live_fallback", 10, now, vs.getD 0 []⟩ :
              KRecord) :: nd,
            ec + 1, fl)
    else
      match writeBackLoop co now bankPresent rest with
      | (radds, nd, ec, fl) => (text :: radds, nd, ec, fl)

/-- The `query_memory` branch of the main loop: offline search first,
live fallback with write-back on a miss. A store-side failure of the
offline step is swallowed and falls through to the fallback; a web
failure is degraded to a failure message inside a success response.
The `if knowledge_table:` guards (before the offline search, inside
the write-back loop, and before the store write) all test
Python truthiness (`bankTruthy`): an existing-but-empty table is
falsy, so those paths are skipped for it. -/
def queryMemoryBranch (co : ComputeOracle) (web : WebOracle) (now : String)
    (st : WorkerState) (query : String) : StepOut :=
  let step1 : List String × Nat :=
    match st.memoryBank with
    | none => ([], 0)
    | some bank =>
      if bankTruthy (some bank) then
        match co.embed [query] with
        | Except.error _ => ([], 1)
        | Except.ok vs =>
          let hits := searchTopK 5 (vs.getD 0 []) KRecord.vector bank
          (if !hits.isEmpty then hits.map KRecord.text else [], 1)
      else ([], 0)
  match step1 with
  | (results1, ec1) =>
    if results1.isEmpty then
      match web.ddgsText (query ++ " review india") with
      | Except.error e =>
        { resp := okResponse (RespBody.dataList
            (results1 ++ ["Web Search Failed: " ++ e])),
          state := st, instr := ⟨ec1, 0, true⟩ }
      | Except.ok webHits =>
        match writeBackLoop co now (bankTruthy st.memoryBank) webHits with
        | (radds, nd, ec2, aborted) =>
          let st2 :=
            if aborted then st
            else
              if !nd.isEmpty && bankTruthy st.memoryBank then
                match st.memoryBank with
                | some bank =>
                  { st with memoryBank := some (bank ++ nd) }
                | none => st
              else st
          { resp := okResponse (RespBody.dataList (results1 ++ radds)),
            state := st2, instr := ⟨ec1 + ec2, 0, true⟩ }
    else
      { resp := okResponse (RespBody.dataList results1),
        state := st, instr := ⟨ec1, 0, false⟩ }

/-! ## The `generate` branch -/

/-- Python `str.split(sep)` for a nonempty separator, fueled
(each step consumes at least one character). -/
def splitSepF (sep : List Char) : Nat → List Char → List (List Char)
  | _, [] => [[]]
  | 0, l => [l]
  | fuel + 1, c :: cs =>
    if startsL sep (c :: cs) && !sep.isEmpty then
      [] :: splitSepF sep fuel ((c :: cs).drop sep.length)
    else
      match splitSepF sep fuel cs with
      | [] => [[c]]
      | w :: ws => (c :: w) :: ws

/-- `s.split(sep)` at the `String` level. -/
def splitSepS (s sep : String) : List String :=
  (splitSepF sep.data s.data.length s.data).map String.mk

/-- Python `s.replace(old, new, 1)`, fueled. -/
def replaceFirstF (sep rep : List Char) : Nat → List Char → List Char
  | _, [] => []
  | 0, l => l
  | fuel + 1, c :: cs =>
    if startsL sep (c :: cs) && !sep.isEmpty then
      rep ++ (c :: cs).drop sep.length
    else c :: replaceFirstF sep rep fuel cs

/-- `s.replace(old, new, 1)` at the `String` level. -/
def replaceFirstS (s sep rep : String) : String :=
  String.mk (replaceFirstF sep.data rep.data s.data.length s.data)

/-- The first line of a string: `s.split("\n")[0]`. -/
def firstLineOf (s : String) : String :=
  String.mk (s.data.takeWhile (fun c => c ≠ '\n'))

/-- The `Name:` / `Topic:` marker parse:
`prompt.split(marker)[1].split("\n")[0].strip()` guarded by a
containment check, with the given default. -/
def extractMarker (prompt marker dflt : String) : String :=
  if containsS prompt marker then
    match splitSepS prompt marker with
    | _ :: seg :: _ => strStrip (firstLineOf seg)
    | _ => dflt
  else dflt

/-- `process_pdf`: decode the payload, extract text through the
pypdf oracle (`none` is an extraction exception; any exception
yields the empty chunk set), split into words and cut 200-word
windows at a 150-word stride. -/
def processPdf (extract : List Nat → Option String) (pdfB64 : String) :
    List String :=
  match pyB64decode pdfB64 with
  | none => []
  | some bytes =>
    match extract bytes with
    | none => []
    | some text =>
      let ws := pySplitS text
      (List.range ((ws.length + 149) / 150)).map
        (fun i => String.intercalate " " ((ws.drop (i * 150)).take 200))

/-- The content-addressed ingestion step of the `generate` branch:
derive the table name from the payload, do nothing if a table of
that name exists, otherwise chunk, embed the chunks (one batched
compute call) and create the table. Returns (state, embed attempts,
raised error). -/
def ingestPdf (co : ComputeOracle) (extract : List Nat → Option String)
    (st : WorkerState) (pdfB64 : String) : WorkerState × Nat × Option String :=
  let tname := docTableName pdfB64
  if tname ∈ tableNames st then (st, 0, none)
  else
    let chunks := processPdf extract pdfB64
    if chunks.isEmpty then (st, 0, none)
    else
      match co.embed chunks with
      | Except.error e => (st, 1, some e)
      | Except.ok vecs =>
        ({ st with docTables := st.docTables ++
            [⟨tname, (vecs.zip chunks).map (fun p => (⟨p.1, p.2⟩ : DocRow))⟩] },
          1, none)

/-- The RAG part of the `generate` branch: ingest, then open the
table unconditionally (raising when it does not exist), embed the
raw prompt and format the top-2 chunks. Errors carry the state and
the embed attempts made so far. -/
def pdfRag (co : ComputeOracle) (extract : List Nat → Option String)
    (st : WorkerState) (prompt pdfB64 : String) :
    Except (String × WorkerState × Nat) (String × WorkerState × Nat) :=
  let tname := docTableName pdfB64
  match ingestPdf co extract st pdfB64 with
  | (st1, ec1, some e) => Except.error (e, st1, ec1)
  | (st1, ec1, none) =>
    match lookupTable st1 tname with
    | none =>
      Except.error ("FileNotFoundError: Table " ++ tname ++ " does not exist",
        st1, ec1)
    | some tbl =>
      match co.embed [prompt] with
      | Except.error e => Except.error (e, st1, ec1 + 1)
      | Except.ok qvs =>
        let top2 := searchTopK 2 (qvs.getD 0 []) DocRow.vector tbl.rows
        Except.ok
          (String.join (top2.map (fun r => "- " ++ strTake 200 r.text ++ "...\n")),
            st1, ec1 + 1)

/-- A `generate` request (defaults 300 and 0 applied by the
router). -/
structure GenReq where
  prompt : String
  maxTokens : Nat
  temperature : Int
  pdf : Option String
deriving Repr

/-- The whole RAG step of the `generate` branch: nothing without a
pdf payload, the ingest-open-search pipeline with one. -/
def ragStep (co : ComputeOracle) (extract : List Nat → Option String)
    (st : WorkerState) (req : GenReq) :
    Except (String × WorkerState × Nat) (String × WorkerState × Nat) :=
  match req.pdf with
  | none => Except.ok ("", st, 0)
  | some pdfB64 => pdfRag co extract st req.prompt pdfB64

/-- The `generate` branch of the main loop: marker parse, sharded
context, optional pdf RAG, prompt assembly, the gated generation
call, end-marker trim and opinion-graph update. Any raised error
becomes the task-level error envelope, keeping the state reached so
far. -/
def generateBranch (co : ComputeOracle) (extract : List Nat → Option String)
    (st : WorkerState) (req : GenReq) : StepOut :=
  let agent := extractMarker req.prompt "Name:" "Unknown"
  let topic := extractMarker req.prompt "Topic:" "General"
  let shardedCtx := getShardedContext st.graph agent topic
  match ragStep co extract st req with
  | Except.error (e, st1, ec) =>
    { resp := errResponse e, state := st1, instr := ⟨ec, 0, false⟩ }
  | Except.ok (ragCtx, st1, ec) =>
    let finalContext := ragCtx ++ "\n" ++ shardedCtx
    let fullPrompt :=
      if containsS req.prompt "<|user|>" then
        replaceFirstS req.prompt "<|user|>" ("<|user|>\n" ++ finalContext ++ "\n")
          ++ "<|end|>\n<|assistant|>"
      else
        "<|user|>\n" ++ finalContext ++ "\n" ++ req.prompt ++
          "<|end|>\n<|assistant|>"
    match co.gen fullPrompt req.maxTokens req.temperature with
    | Except.error e =>
      { resp := errResponse e, state := st1, instr := ⟨ec, 1, false⟩ }
    | Except.ok resText =>
      let finalText := strStrip ((splitSepS resText "<|end|>").headD "")
      { resp := okResponse (RespBody.genText finalText),
        state := { st1 with
          graph := updateGraphMemory st1.graph agent finalText topic },
        instr := ⟨ec, 1, false⟩ }

/-! ## The request router and main loop -/

/-- An inbound task envelope (fields already extracted; the model
takes well-formed task payloads). -/
inductive Request where
  | queryMemory (query : String)
  | research (product context : String)
  | getFacts (query : String)
  | generate (req : GenReq)

/-- Every external collaborator of one worker process. -/
structure Oracles where
  compute : ComputeOracle
  web : WebOracle
  research : ResearchOracles
  fact : FactOracle
  extract : List Nat → Option String
  now : String

/-- The command router of the main loop: one request in, one
response out, with the outer exception handler around the branch. -/
def processRequest (oc : Oracles) (st : WorkerState) :
    Request → StepOut
  | Request.queryMemory q => queryMemoryBranch oc.compute oc.web oc.now st q
  | Request.research p ctx =>
    match performFederatedResearch oc.research p ctx with
    | Except.ok vs =>
      { resp := okResponse (RespBody.researchData vs),
        state := st, instr := ⟨0, 0, false⟩ }
    | Except.error e =>
      { resp := errResponse e, state := st, instr := ⟨0, 0, false⟩ }
  | Request.getFacts q =>
    { resp := okResponse (RespBody.factSheet (performFactCheck oc.fact q)),
      state := st, instr := ⟨0, 0, false⟩ }
  | Request.generate r => generateBranch oc.compute oc.extract st r

/-- The main loop over a queue of requests: strictly sequential, one
request fully processed before the next is read. -/
def runWorker (oc : Oracles) (st : WorkerState) :
    List Request → List Response × WorkerState × List Instr
  | [] => ([], st, [])
  | r :: rs =>
    match processRequest oc st r with
    | ⟨resp, st1, ins⟩ =>
      match runWorker oc st1 rs with
      | (resps, st2, inss) => (resp :: resps, st2, ins :: inss)

/-! ## The compute gate trace (claim C2)

The worker serializes every compute call by construction: the main
loop is a single thread, and each `encode` / `generate` call is a
synchronous invocation. The gate instrumentation of the claim is an
acquire event at call entry and a release event at call exit; a
synchronous call in the sequential loop contributes one adjacent
acquire-release pair per compute invocation. -/

inductive GateEv where
  | acquire
  | release
deriving DecidableEq, Repr

/-- The event pairs of `n` sequential gated calls. -/
def gatePairs : Nat → List GateEv
  | 0 => []
  | n + 1 => GateEv.acquire :: GateEv.release :: gatePairs n

/-- Compute invocations of one processed request. -/
def computeCallsOf (i : Instr) : Nat := i.embedCalls + i.genCalls

/-- The gate event trace of a whole run. -/
def gateTrace (oc : Oracles) (st : WorkerState) (reqs : List Request) :
    List GateEv :=
  (((runWorker oc st reqs).2.2).map
    (fun i => gatePairs (computeCallsOf i))).flatten

/-- Holders of the gate after a trace: acquires minus releases. -/
def gateDepth : Nat → List GateEv → Nat
  | d, [] => d
  | d, GateEv.acquire :: es => gateDepth (d + 1) es
  | d, GateEv.release :: es => gateDepth (d - 1) es

/-- List front: `a` followed by something yields `b`. -/
def IsPre (a b : List GateEv) : Prop := ∃ t, a ++ t = b

/-! ## Concrete instances for the closed statements -/

/-- A never-failing compute capability over a pure embedding
function. -/
def pureCompute (f : String → List Int) : ComputeOracle :=
  { embed := fun ts => Except.ok (ts.map f),
    gen := fun _ _ _ => Except.ok "fine" }

/-- The length-vector embedding used by witnesses. -/
def lenEmbed (s : String) : List Int := [Int.ofNat s.length]

/-- A web oracle returning one hit. -/
def oneHitWeb : WebOracle :=
  { ddgsText := fun _ => Except.ok [⟨"t1", "b1"⟩] }

/-- A compute capability whose embedding always fails. -/
def failEmbedCompute : ComputeOracle :=
  { embed := fun _ => Except.error "embedding backend down",
    gen := fun _ _ _ => Except.ok "fine" }

/-- A fresh state whose memory bank exists and holds one seed
record. -/
def seededState : WorkerState :=
  { graph := emptyGraph,
    memoryBank := some [⟨"seed fact", "seed", "seed", 1, "2024-01-01", [9]⟩],
    docTables := [] }

/-- A fresh state with an existing empty memory bank. -/
def emptyBankState : WorkerState :=
  { graph := emptyGraph, memoryBank := some [], docTables := [] }

/-- A fresh state with no memory bank and no document tables. -/
def bareState : WorkerState :=
  { graph := emptyGraph, memoryBank := none, docTables := [] }

/-- Oracles for the closed runs: pure compute, one web hit, failing
research providers, extraction that always finds two words. -/
def demoOracles : Oracles :=
  { compute := pureCompute lenEmbed, web := oneHitWeb,
    research := failingResearchOracles, fact := failingFactOracle,
    extract := fun _ => some "hello world", now := "2024-01-01" }

/-! ### Fuel invariance and unfolding -/

lemma pySplitF_nil (f : Nat) : pySplitF f [] = [] := by
  cases f <;> rfl

lemma subDelF_nil (mf : Option Char → List Char → Option Nat)
    (f : Nat) (prev : Option Char) : subDelF mf f prev [] = [] := by
  cases f <;> rfl

lemma pySplitF_fuel_inv : ∀ f1 f2 (l : List Char), l.length ≤ f1 →
    l.length ≤ f2 → pySplitF f1 l = pySplitF f2 l := by
  intro f1
  induction f1 with
  | zero =>
    intro f2 l h1 _
    have : l = [] := List.length_eq_zero.mp (Nat.le_zero.mp h1)
    subst this
    rw [pySplitF_nil, pySplitF_nil]
  | succ f ih =>
    intro f2 l h1 h2
    cases l with
    | nil => rw [pySplitF_nil, pySplitF_nil]
    | cons c cs =>
      cases f2 with
      | zero => simp at h2
      | succ g =>
        simp only [List.length_cons] at h1 h2
        have hcs1 : cs.length ≤ f := by omega
        have hcs2 : cs.length ≤ g := by omega
        have hdw :
            (cs.dropWhile (fun d => !pyIsSpace d)).length ≤ cs.length :=
          (List.dropWhile_sublist (l := cs) (fun d => !pyIsSpace d)).length_le
        simp only [pySplitF]
        by_cases hsp : pyIsSpace c
        · rw [if_pos hsp, if_pos hsp, ih g cs hcs1 hcs2]
        · rw [if_neg hsp, if_neg hsp,
            ih g _ (Nat.le_trans hdw hcs1) (Nat.le_trans hdw hcs2)]

lemma pySplitWs_cons (c : Char) (cs : List Char) :
    pySplitWs (c :: cs) =
      if pyIsSpace c then pySplitWs cs
      else (c :: cs.takeWhile (fun d => !pyIsSpace d)) ::
        pySplitWs (cs.dropWhile (fun d => !pyIsSpace d)) := by
  have hdw : (cs.dropWhile (fun d => !pyIsSpace d)).length ≤ cs.length :=
    (List.dropWhile_sublist (l := cs) (fun d => !pyIsSpace d)).length_le
  show pySplitF (cs.length + 1) (c :: cs) = _
  simp only [pySplitF]
  by_cases hsp : pyIsSpace c
  · rw [if_pos hsp, if_pos hsp]
    rfl
  · rw [if_neg hsp, if_neg hsp,
      pySplitF_fuel_inv cs.length _ _ hdw le_rfl]
    rfl

lemma subDelF_fuel_inv (mf : Option Char → List Char → Option Nat) :
    ∀ f1 f2 prev (l : List Char), l.length ≤ f1 → l.length ≤ f2 →
      subDelF mf f1 prev l = subDelF mf f2 prev l := by
  intro f1
  induction f1 with
  | zero =>
    intro f2 prev l h1 _
    have : l = [] := List.length_eq_zero.mp (Nat.le_zero.mp h1)
    subst this
    rw [subDelF_nil, subDelF_nil]
  | succ f ih =>
    intro f2 prev l h1 h2
    cases l with
    | nil => rw [subDelF_nil, subDelF_nil]
    | cons c cs =>
      cases f2 with
      | zero => simp at h2
      | succ g =>
        simp only [List.length_cons] at h1 h2
        have hcs1 : cs.length ≤ f := by omega
        have hcs2 : cs.length ≤ g := by omega
        cases hm : mf prev (c :: cs) with
        | none =>
          simp only [subDelF, hm]
          rw [ih g (some c) cs hcs1 hcs2]
        | some n =>
          cases n with
          | zero =>
            simp only [subDelF, hm]
            rw [ih g (some c) cs hcs1 hcs2]
          | succ k =>
            have hd : (cs.drop k).length ≤ cs.length := by
              rw [List.length_drop]; omega
            simp only [subDelF, hm]
            rw [ih g _ _ (Nat.le_trans hd hcs1) (Nat.le_trans hd hcs2)]

lemma subDel_cons (mf : Option Char → List Char → Option Nat)
    (prev : Option Char) (c : Char) (cs : List Char) :
    subDel mf prev (c :: cs) =
      match mf prev (c :: cs) with
      | some (n + 1) => subDel mf (some ((c :: cs).getD n c)) (cs.drop n)
      | _ => c :: subDel mf (some c) cs := by
  show subDelF mf (cs.length + 1) prev (c :: cs) = _
  cases hm : mf prev (c :: cs) with
  | none =>
    simp only [subDelF, hm]
    rfl
  | some n =>
    cases n with
    | zero =>
      simp only [subDelF, hm]
      rfl
    | succ k =>
      have hd : (cs.drop k).length ≤ cs.length := by
        rw [List.length_drop]; omega
      simp only [subDelF, hm]
      exact subDelF_fuel_inv mf cs.length _ _ _ hd le_rfl

/-! ### Length monotonicity (claim C7 support) -/

lemma subDel_len_le (mf : Option Char → List Char → Option Nat) :
    ∀ (n : Nat) (prev : Option Char) (l : List Char), l.length ≤ n →
      (subDel mf prev l).length ≤ l.length := by
  intro n
  induction n with
  | zero =>
    intro prev l h
    have : l = [] := List.length_eq_zero.mp (Nat.le_zero.mp h)
    subst this
    show (subDelF mf 0 prev []).length ≤ _
    rw [subDelF_nil]
  | succ n ih =>
    intro prev l h
    cases l with
    | nil =>
      show (subDelF mf 0 prev []).length ≤ _
      rw [subDelF_nil]
    | cons c cs =>
      simp only [List.length_cons] at h
      have hcs : cs.length ≤ n := by omega
      rw [subDel_cons]
      cases hm : mf prev (c :: cs) with
      | none =>
        simp only [List.length_cons]
        have := ih (some c) cs hcs
        omega
      | some k =>
        cases k with
        | zero =>
          simp only [List.length_cons]
          have := ih (some c) cs hcs
          omega
        | succ j =>
          have hd : (cs.drop j).length ≤ cs.length := by
            rw [List.length_drop]; omega
          have := ih (some ((c :: cs).getD j c)) (cs.drop j)
            (Nat.le_trans hd hcs)
          simp only [List.length_cons]
          omega

lemma joinSpace_cons_len (w : List Char) (ws : List (List Char)) :
    (joinSpace (w :: ws)).length =
      w.length + (if ws.isEmpty then 0 else 1 + (joinSpace ws).length) := by
  cases ws with
  | nil => simp [joinSpace]
  | cons x xs => simp [joinSpace]; omega

lemma dropWhile_head_false (p : Char → Bool) :
    ∀ (l : List Char) c cs, l.dropWhile p = c :: cs → p c = false := by
  intro l
  induction l with
  | nil => intro c cs h; simp [List.dropWhile] at h
  | cons a as ih =>
    intro c cs h
    by_cases hp : p a
    · rw [List.dropWhile_cons_of_pos hp] at h
      exact ih c cs h
    · rw [List.dropWhile_cons_of_neg hp] at h
      cases h
      simpa using hp

lemma joinSplit_le : ∀ (n : Nat) (l : List Char), l.length ≤ n →
    (joinSpace (pySplitWs l)).length ≤ l.length ∧
      (∀ c cs, l = c :: cs → pyIsSpace c = true →
        (joinSpace (pySplitWs l)).length + 1 ≤ l.length) := by
  intro n
  induction n with
  | zero =>
    intro l h
    have : l = [] := List.length_eq_zero.mp (Nat.le_zero.mp h)
    subst this
    exact ⟨by simp [pySplitWs, pySplitF, joinSpace], by intro c cs h; simp at h⟩
  | succ n ih =>
    intro l h
    cases l with
    | nil =>
      exact ⟨by simp [pySplitWs, pySplitF, joinSpace], by intro c cs h; simp at h⟩
    | cons c cs =>
      simp only [List.length_cons] at h
      have hcs : cs.length ≤ n := by omega
      by_cases hsp : pyIsSpace c
      · have hstep : pySplitWs (c :: cs) = pySplitWs cs := by
          rw [pySplitWs_cons, if_pos hsp]
        have h1 := (ih cs hcs).1
        constructor
        · rw [hstep]; simp only [List.length_cons]; omega
        · intro c' cs' heq _
          cases heq
          rw [hstep]; simp only [List.length_cons]; omega
      · have hstep : pySplitWs (c :: cs) =
            (c :: cs.takeWhile (fun d => !pyIsSpace d)) ::
              pySplitWs (cs.dropWhile (fun d => !pyIsSpace d)) := by
          rw [pySplitWs_cons, if_neg hsp]
        set tw := cs.takeWhile (fun d => !pyIsSpace d) with htw
        set rest := cs.dropWhile (fun d => !pyIsSpace d) with hrest
        have hsplitlen : tw.length + rest.length = cs.length := by
          have := List.takeWhile_append_dropWhile (p := fun d => !pyIsSpace d)
            (l := cs)
          calc tw.length + rest.length = (tw ++ rest).length := by
                simp [List.length_append]
            _ = cs.length := by rw [htw, hrest, this]
        have hbound : (joinSpace (pySplitWs (c :: cs))).length ≤
            cs.length + 1 := by
          rw [hstep, joinSpace_cons_len]
          by_cases hre : (pySplitWs rest).isEmpty
          · rw [if_pos hre]
            simp only [List.length_cons]
            omega
          · rw [if_neg hre]
            simp only [List.length_cons]
            have hrne : rest ≠ [] := by
              intro hcon
              rw [hcon] at hre
              simp [pySplitWs, pySplitF] at hre
            obtain ⟨r0, rest', hr0⟩ := List.exists_cons_of_ne_nil hrne
            have hr0sp : pyIsSpace r0 = true := by
              have := dropWhile_head_false (fun d => !pyIsSpace d) cs r0 rest'
                (by rw [← hrest, hr0])
              simpa using this
            have hrlen : rest.length ≤ n := by omega
            have := (ih rest hrlen).2 r0 rest' hr0 hr0sp
            omega
        refine ⟨by simpa using hbound, ?_⟩
        intro c' cs' heq hsp'
        cases heq
        exact absurd hsp' (by simpa using hsp)

lemma collapseWs_len_le (l : List Char) : (collapseWs l).length ≤ l.length :=
  (joinSplit_le l.length l le_rfl).1

lemma joinSpace_dropLast_le : ∀ ws : List (List Char),
    (joinSpace ws.dropLast).length ≤ (joinSpace ws).length := by
  intro ws
  induction ws with
  | nil => simp
  | cons w ws ih =>
    cases ws with
    | nil => simp [joinSpace]
    | cons x xs =>
      rw [List.dropLast_cons_of_ne_nil (by simp), joinSpace_cons_len,
        joinSpace_cons_len]
      simp only [List.isEmpty_cons]
      rw [if_neg Bool.false_ne_true]
      by_cases hd : ((x :: xs).dropLast).isEmpty
      · rw [if_pos hd]
        omega
      · rw [if_neg hd]
        omega

lemma regexPass_len_le (q0 : List Char) :
    (regexPass q0).length ≤ q0.length := by
  unfold regexPass
  have l1 : (subDel matchUnit none q0).length ≤ q0.length :=
    subDel_len_le _ _ none q0 le_rfl
  have l2 := subDel_len_le matchNoise _ none (subDel matchUnit none q0) le_rfl
  have l3 := subDel_len_le matchStop _ none
    (subDel matchNoise none (subDel matchUnit none q0)) le_rfl
  have l4 := collapseWs_len_le (subDel matchStop none
    (subDel matchNoise none (subDel matchUnit none q0)))
  omega

/-- C7: one application of the relaxation step never increases length,
at the character-list level. -/
lemma cleanQueryStepL_len_le (q0 : List Char) :
    (cleanQueryStepL q0).length ≤ q0.length := by
  unfold cleanQueryStepL
  by_cases heq : regexPass q0 = q0
  · rw [if_pos heq]
    by_cases htk : 1 < (pySplitWs (regexPass q0)).length
    · rw [if_pos htk]
      calc (joinSpace (pySplitWs (regexPass q0)).dropLast).length
          ≤ (joinSpace (pySplitWs (regexPass q0))).length :=
            joinSpace_dropLast_le _
        _ ≤ (regexPass q0).length :=
            (joinSplit_le (regexPass q0).length _ le_rfl).1
        _ = q0.length := by rw [heq]
    · rw [if_neg htk, heq]
  · rw [if_neg heq]
    exact regexPass_len_le q0

/-! ### Claim C7 -/

/-- C7: one application of the query-relaxation step returns a string
whose length is not greater than the length of the input. -/
theorem c7_relax_non_increasing (q : String) :
    (cleanQueryStep q).length ≤ q.length := by
  have h := cleanQueryStepL_len_le q.data
  show (String.mk (cleanQueryStepL q.data)).data.length ≤ q.data.length
  exact h

/-! ### Research / fact-check lemmas -/

lemma dedupFirstAux_nodup : ∀ (l seen : List String),
    (dedupFirstAux seen l).Nodup ∧ ∀ x ∈ dedupFirstAux seen l, x ∉ seen := by
  intro l
  induction l with
  | nil => intro seen; exact ⟨List.nodup_nil, by simp [dedupFirstAux]⟩
  | cons x xs ih =>
    intro seen
    by_cases hx : x ∈ seen
    · simp only [dedupFirstAux, if_pos hx]
      exact ih seen
    · simp only [dedupFirstAux, if_neg hx]
      obtain ⟨hnd, hmem⟩ := ih (x :: seen)
      constructor
      · refine List.nodup_cons.mpr ⟨?_, hnd⟩
        intro hmem2
        exact (hmem x hmem2) (List.mem_cons_self x seen)
      · intro y hy
        rcases List.mem_cons.mp hy with rfl | hy2
        · exact hx
        · intro hyseen
          exact (hmem y hy2) (List.mem_cons_of_mem x hyseen)

lemma dedupFirst_nodup (l : List String) : (dedupFirst l).Nodup :=
  (dedupFirstAux_nodup l []).1

lemma factLoop_none (foc : FactOracle) (hfail : ∀ s, foc.off s = none) :
    ∀ n q, factLoop foc n q = none := by
  intro n
  induction n with
  | zero => intro q; rfl
  | succ n ih =>
    intro q
    simp only [factLoop, hfail q]
    split
    · rfl
    · exact ih _

lemma research_tail_ok (voices : List String) :
    ∃ vs, (if voices.isEmpty then
        (Except.ok [noFootprintAlert] : Except String (List String))
      else Except.ok ((dedupFirst voices).take 15)) = Except.ok vs ∧
      (vs = [noFootprintAlert] ∨ (vs.Nodup ∧ vs.length ≤ 15)) := by
  by_cases h : voices.isEmpty
  · exact ⟨[noFootprintAlert], by rw [if_pos h], Or.inl rfl⟩
  · refine ⟨(dedupFirst voices).take 15, by rw [if_neg h], Or.inr ⟨?_, ?_⟩⟩
    · exact List.Nodup.sublist (List.take_sublist _ _) (dedupFirst_nodup voices)
    · rw [List.length_take]
      exact Nat.min_le_left _ _

/-! ### Claim C8 -/

/-- C8 counterexample: for the empty product string the research
lookup raises (`topic.split()[0]` faults with `IndexError` outside
every handler, here surfaced as the error value), for every provider
behavior — the claim says the lookup never raises to the caller. -/
theorem c8_counterexample :
    performFederatedResearch failingResearchOracles "" "" =
      Except.error "IndexError: list index out of range" := rfl

/-- C8 amended: for every product whose text has at least one
whitespace-delimited token the research lookup returns normally, and
its result is either the sentinel alert or a deduplicated list of at
most 15 voices; the fact-check lookup returns normally for every
query and yields its sentinel alert on total provider failure. -/
theorem c8_amended (oc : ResearchOracles) (foc : FactOracle)
    (topic audienceContext q : String) (hp : pySplitS topic ≠ []) :
    (∃ vs, performFederatedResearch oc topic audienceContext =
        Except.ok vs ∧
      (vs = [noFootprintAlert] ∨ (vs.Nodup ∧ vs.length ≤ 15))) ∧
    ((∀ s, foc.off s = none) → performFactCheck foc q = offAlert) := by
  constructor
  · cases hsp : pySplitS topic with
    | nil => exact absurd hsp hp
    | cons b bs =>
      simp only [performFederatedResearch, hsp]
      exact research_tail_ok _
  · intro hfail
    unfold performFactCheck
    rw [factLoop_none foc hfail 3 q]

/-- C8 witness: the amended statement at a two-token product, a
one-token query and the all-failing providers. -/
theorem c8_amended_witness :
    pySplitS "green tea" ≠ [] ∧
    (∃ vs, performFederatedResearch failingResearchOracles "green tea" "" =
        Except.ok vs ∧
      (vs = [noFootprintAlert] ∨ (vs.Nodup ∧ vs.length ≤ 15))) ∧
    performFactCheck failingFactOracle "soap" = offAlert := by
  have h := c8_amended failingResearchOracles failingFactOracle
    "green tea" "" "soap" (by decide)
  exact ⟨by decide, h.1, h.2 (fun s => rfl)⟩

/-! ### Opinion graph lemmas -/

lemma addNodeG_edges (g : MemGraph) (n : String) :
    (addNodeG g n).edges = g.edges := by
  unfold addNodeG
  split <;> rfl

lemma find_upsert (e : GEdge) :
    ∀ es, (upsertEdge e es).find? (sameKey e.src e.dst) = some e := by
  intro es
  induction es with
  | nil => simp [upsertEdge, List.find?, sameKey]
  | cons f fs ih =>
    by_cases h : sameKey e.src e.dst f = true
    · simp only [upsertEdge, if_pos h]
      apply List.find?_cons_of_pos
      simp [sameKey]
    · simp only [upsertEdge, if_neg h]
      rw [List.find?_cons_of_neg _ (by simpa using h)]
      exact ih

/-- Shared sharding computation: when the topic node exists and there
is at least one other opinion, `get_sharded_context` returns exactly
the header plus the three-element window of the opinion list starting
at the computed shard offset. -/
lemma sharded_eq (g : MemGraph) (agentName topic : String)
    (hnode : hasNodeG g topic = true)
    (hne : allOpinions g agentName topic ≠ []) :
    getShardedContext g agentName topic =
      "\n[WHAT OTHERS ARE SAYING - YOUR FEED]:\n" ++
        String.intercalate "\n"
          (((allOpinions g agentName topic).drop
            (sumCharCodes agentName % 3 *
                max 1 ((allOpinions g agentName topic).length / 2) %
              (allOpinions g agentName topic).length)).take 3) ++ "\n" := by
  have h2 : (allOpinions g agentName topic).isEmpty = false := by
    cases hop : allOpinions g agentName topic with
    | nil => exact absurd hop hne
    | cons a as => rfl
  unfold getShardedContext
  rw [hnode]
  simp [h2]

lemma sharded_empty_of_no_node (g : MemGraph) (agentName topic : String)
    (hnode : hasNodeG g topic = false) :
    getShardedContext g agentName topic = "" := by
  unfold getShardedContext
  rw [hnode]
  rfl

lemma sharded_empty_of_no_opinions (g : MemGraph) (agentName topic : String)
    (hop : allOpinions g agentName topic = []) :
    getShardedContext g agentName topic = "" := by
  unfold getShardedContext
  cases hnode : hasNodeG g topic with
  | false => rfl
  | true => simp [hop]

/-! ### Claim C3 -/

/-- C3: whenever the graph holds at least one opinion of agents other
than the requester about the topic, `get_sharded_context` returns
exactly the window `opinions[start : start + 3]` (truncating, no
wraparound) where `shardIndex = (sum of character codes) mod 3`,
`shardSize = max 1 (n / 2)` and `start = shardIndex * shardSize mod
n`, over the opinion list in edge insertion order. -/
theorem c3_sharded_window (g : MemGraph) (agentName topic : String)
    (hnode : hasNodeG g topic = true)
    (hne : allOpinions g agentName topic ≠ []) :
    getShardedContext g agentName topic =
      "\n[WHAT OTHERS ARE SAYING - YOUR FEED]:\n" ++
        String.intercalate "\n"
          (((allOpinions g agentName topic).drop
            (sumCharCodes agentName % 3 *
                max 1 ((allOpinions g agentName topic).length / 2) %
              (allOpinions g agentName topic).length)).take 3) ++ "\n" :=
  sharded_eq g agentName topic hnode hne

/-- C3 witness: for agent name AAA and six stored opinions the window
is exactly `opinions[0:3]`. -/
theorem c3_sharded_window_witness :
    getShardedContext sixOpinionGraph "AAA" "T" =
      "\n[WHAT OTHERS ARE SAYING - YOUR FEED]:\n" ++
        String.intercalate "\n"
          ((allOpinions sixOpinionGraph "AAA" "T").take 3) ++ "\n" := by
  have h := c3_sharded_window sixOpinionGraph "AAA" "T" (by decide) (by decide)
  rw [h]
  decide

/-! ### Claim C10 -/

/-- C10: `get_sharded_context` is safe for every agent name (the
empty string included), topic and graph: either it returns the empty
string, or the opinion count is positive, the shard offset is taken
modulo that positive count and lies strictly below it, and the result
is the truncating three-element window (never more than three
items). -/
theorem c10_sharding_safe (g : MemGraph) (agentName topic : String) :
    getShardedContext g agentName topic = "" ∨
      (0 < (allOpinions g agentName topic).length ∧
        sumCharCodes agentName % 3 *
            max 1 ((allOpinions g agentName topic).length / 2) %
          (allOpinions g agentName topic).length <
          (allOpinions g agentName topic).length ∧
        getShardedContext g agentName topic =
          "\n[WHAT OTHERS ARE SAYING - YOUR FEED]:\n" ++
            String.intercalate "\n"
              (((allOpinions g agentName topic).drop
                (sumCharCodes agentName % 3 *
                    max 1 ((allOpinions g agentName topic).length / 2) %
                  (allOpinions g agentName topic).length)).take 3) ++ "\n" ∧
        (((allOpinions g agentName topic).drop
            (sumCharCodes agentName % 3 *
                max 1 ((allOpinions g agentName topic).length / 2) %
              (allOpinions g agentName topic).length)).take 3).length ≤ 3) := by
  cases hnode : hasNodeG g topic with
  | false => exact Or.inl (sharded_empty_of_no_node g agentName topic hnode)
  | true =>
    by_cases hop : allOpinions g agentName topic = []
    · exact Or.inl (sharded_empty_of_no_opinions g agentName topic hop)
    · have hlen : 0 < (allOpinions g agentName topic).length :=
        List.length_pos.mpr hop
      refine Or.inr ⟨hlen, Nat.mod_lt _ hlen,
        sharded_eq g agentName topic hnode hop, ?_⟩
      rw [List.length_take]
      exact Nat.min_le_left _ _

/-! ### Claim C4 -/

/-- C4 counterexample: the claim says the response "excellent" (a
claimed positive keyword) gets edge weight +1, but the code stores
weight 0 for it — the code only scans for love/great and hate/bad. -/
theorem c4_counterexample :
    (findEdge (updateGraphMemory emptyGraph "A" "excellent" "T") "A" "T").map
        GEdge.weight = some 0 ∧
      claimSentiment "excellent" = 1 := by
  constructor
  · decide
  · decide

/-- C4 amended: the opinion-graph update upserts the `(agent, topic)`
edge with weight +1 if the case-folded response contains "love" or
"great", else -1 if it contains "hate" or "bad", else 0, and with the
first 120 characters of the response as content. -/
theorem c4_amended (g : MemGraph) (agentName topic responseText : String) :
    findEdge (updateGraphMemory g agentName responseText topic)
        agentName topic =
      some ⟨agentName, topic, amendedSentiment responseText,
        strTake 120 responseText⟩ := by
  unfold updateGraphMemory addEdgeG findEdge
  simp only [addNodeG_edges]
  exact find_upsert ⟨agentName, topic, amendedSentiment responseText,
    strTake 120 responseText⟩ g.edges

/-! ### Claim C1 -/

lemma pureCompute_embed (f : String → List Int) (ts : List String) :
    (pureCompute f).embed ts = Except.ok (ts.map f) := rfl

/-- C1: code_bug evidence at the claim's own scenario. The memory
bank exists but is empty — the only way an intact store can answer
zero hits, since a LanceDB search has no distance threshold. Because
the empty table is falsy (`__len__`), the program skips the query
embedding entirely (zero embed calls), invokes the live fallback,
succeeds (the live hit is returned), yet writes nothing back: the
bank is unchanged and an immediately following retrieval of the same
query invokes the fallback again, against the claim and spec §8. -/
theorem c1_empty_bank_no_writeback :
    (⟨emptyGraph, some [], []⟩ : WorkerState).memoryBank = some [] ∧
    (queryMemoryBranch (pureCompute lenEmbed) oneHitWeb "2024-01-01"
      ⟨emptyGraph, some [], []⟩ "X").instr.usedFallback = true ∧
    (queryMemoryBranch (pureCompute lenEmbed) oneHitWeb "2024-01-01"
      ⟨emptyGraph, some [], []⟩ "X").instr.embedCalls = 0 ∧
    (queryMemoryBranch (pureCompute lenEmbed) oneHitWeb "2024-01-01"
      ⟨emptyGraph, some [], []⟩ "X").resp =
      okResponse (RespBody.dataList ["[LIVE WEB] t1: b1"]) ∧
    (queryMemoryBranch (pureCompute lenEmbed) oneHitWeb "2024-01-01"
      ⟨emptyGraph, some [], []⟩ "X").state.memoryBank = some [] ∧
    (queryMemoryBranch (pureCompute lenEmbed) oneHitWeb "2024-01-01"
      (queryMemoryBranch (pureCompute lenEmbed) oneHitWeb "2024-01-01"
        ⟨emptyGraph, some [], []⟩ "X").state "X").instr.usedFallback =
      true :=
  ⟨rfl, rfl, rfl, rfl, rfl, rfl⟩

/-! ### Claim C2 -/

lemma gateDepth_append : ∀ (a b : List GateEv) (d : Nat),
    gateDepth d (a ++ b) = gateDepth (gateDepth d a) b := by
  intro a
  induction a with
  | nil => intro b d; rfl
  | cons e es ih =>
    intro b d
    cases e <;> simp only [List.cons_append, gateDepth] <;> exact ih b _

lemma gateDepth_gatePairs : ∀ (n d : Nat),
    gateDepth d (gatePairs n) = d := by
  intro n
  induction n with
  | zero => intro d; rfl
  | succ n ih =>
    intro d
    simp only [gatePairs, gateDepth, Nat.add_sub_cancel]
    exact ih d

lemma gatePairs_front_le : ∀ (n : Nat) (pre : List GateEv),
    IsPre pre (gatePairs n) → gateDepth 0 pre ≤ 1 := by
  intro n
  induction n with
  | zero =>
    intro pre h
    obtain ⟨t, ht⟩ := h
    cases pre with
    | nil => simp [gateDepth]
    | cons x xs => simp [gatePairs] at ht
  | succ n ih =>
    intro pre h
    obtain ⟨t, ht⟩ := h
    cases pre with
    | nil => simp [gateDepth]
    | cons e1 p1 =>
      simp only [gatePairs, List.cons_append, List.cons.injEq] at ht
      obtain ⟨rfl, ht⟩ := ht
      cases p1 with
      | nil => simp [gateDepth]
      | cons e2 p2 =>
        simp only [List.cons_append, List.cons.injEq] at ht
        obtain ⟨rfl, ht⟩ := ht
        have hd : gateDepth 0 (GateEv.acquire :: GateEv.release :: p2) =
            gateDepth 0 p2 := by
          simp [gateDepth]
        rw [hd]
        exact ih p2 ⟨t, ht⟩

lemma front_append_cases : ∀ (a b pre : List GateEv),
    IsPre pre (a ++ b) →
      IsPre pre a ∨ ∃ p2, pre = a ++ p2 ∧ IsPre p2 b := by
  intro a
  induction a with
  | nil =>
    intro b pre h
    exact Or.inr ⟨pre, rfl, h⟩
  | cons x a ih =>
    intro b pre h
    obtain ⟨t, ht⟩ := h
    cases pre with
    | nil => exact Or.inl ⟨x :: a, rfl⟩
    | cons y p =>
      simp only [List.cons_append, List.cons.injEq] at ht
      obtain ⟨rfl, ht⟩ := ht
      rcases ih b p ⟨t, ht⟩ with ⟨t1, h1⟩ | ⟨p2, hp2, h2⟩
      · exact Or.inl ⟨t1, by simp [h1]⟩
      · exact Or.inr ⟨p2, by simp [hp2], h2⟩

lemma flatten_front_le : ∀ (ns : List Nat) (pre : List GateEv),
    IsPre pre ((ns.map gatePairs).flatten) → gateDepth 0 pre ≤ 1 := by
  intro ns
  induction ns with
  | nil =>
    intro pre h
    obtain ⟨t, ht⟩ := h
    cases pre with
    | nil => simp [gateDepth]
    | cons x xs => simp at ht
  | cons n ns ih =>
    intro pre h
    rw [List.map_cons, List.flatten_cons] at h
    rcases front_append_cases (gatePairs n) _ pre h with h1 | ⟨p2, rfl, h2⟩
    · exact gatePairs_front_le n pre h1
    · rw [gateDepth_append, gateDepth_gatePairs]
      exact ih p2 h2

/-- C2: the worker serializes every compute call. For every oracle
behavior, start state and request queue, the counting
instrumentation around gate entry and exit never exceeds one at any
point of the run trace: no two embedding or generation calls ever
hold the gate simultaneously, because the main loop is a single
sequential thread and each call is synchronous. -/
theorem c2_gate_exclusive (oc : Oracles) (st : WorkerState)
    (reqs : List Request) (pre : List GateEv)
    (h : IsPre pre (gateTrace oc st reqs)) : gateDepth 0 pre ≤ 1 := by
  have heq : gateTrace oc st reqs =
      ((((runWorker oc st reqs).2.2).map computeCallsOf).map
        gatePairs).flatten := by
    simp only [gateTrace, List.map_map]
    rfl
  rw [heq] at h
  exact flatten_front_le _ pre h

/-- C2 witness: the full trace of a concrete two-request run (a
fallback retrieval followed by a pdf-ingesting generation) never
exceeds gate depth one. -/
theorem c2_gate_exclusive_witness :
    gateDepth 0 (gateTrace demoOracles emptyBankState
      [Request.queryMemory "X",
        Request.generate ⟨"hi", 300, 0, some "AA=="⟩]) ≤ 1 :=
  c2_gate_exclusive demoOracles emptyBankState
    [Request.queryMemory "X",
      Request.generate ⟨"hi", 300, 0, some "AA=="⟩]
    (gateTrace demoOracles emptyBankState
      [Request.queryMemory "X",
        Request.generate ⟨"hi", 300, 0, some "AA=="⟩])
    ⟨[], List.append_nil _⟩

/-! ### Claim C5 -/

/-- C5: at a generate request whose pdf payload yields no extractable
text and whose content-addressed table does not exist, the code
creates no table — as the claim says — but then opens the absent
table unconditionally, so the request produces an error envelope,
not the normal response the claim (and the spec) require. -/
theorem c5_no_text_pdf_error :
    processPdf (fun _ => some "") "AA==" = [] ∧
    (generateBranch (pureCompute lenEmbed) (fun _ => some "") bareState
      ⟨"hi", 300, 0, some "AA=="⟩).state.docTables = [] ∧
    (generateBranch (pureCompute lenEmbed) (fun _ => some "") bareState
      ⟨"hi", 300, 0, some "AA=="⟩).resp.status = "error" :=
  ⟨rfl, rfl, rfl⟩

/-! ### Claim C6 -/

set_option maxRecDepth 8000 in
/-- C6 counterexample: the table name is not a function of the raw
document bytes. The payloads AA== and AB== decode to the same single
zero byte, yet they hash to different table names, and ingesting
both (with extractable text) creates two tables and repeats the
embedding work on the second run. -/
theorem c6_counterexample :
    pyB64decode "AA==" = some [0] ∧ pyB64decode "AB==" = some [0] ∧
    docTableName "AA==" ≠ docTableName "AB==" ∧
    ((generateBranch (pureCompute lenEmbed) (fun _ => some "hello world")
        ((generateBranch (pureCompute lenEmbed) (fun _ => some "hello world")
          bareState ⟨"hi", 300, 0, some "AB=="⟩).state)
        ⟨"hi", 300, 0, some "AA=="⟩).state.docTables.map DocTable.name) =
      [docTableName "AB==", docTableName "AA=="] ∧
    (generateBranch (pureCompute lenEmbed) (fun _ => some "hello world")
        ((generateBranch (pureCompute lenEmbed) (fun _ => some "hello world")
          bareState ⟨"hi", 300, 0, some "AB=="⟩).state)
        ⟨"hi", 300, 0, some "AA=="⟩).instr.embedCalls = 2 :=
  ⟨rfl, rfl, by decide, rfl, rfl⟩

/-- C6 amended: the table name is a deterministic function of the
base64 pdf payload string. Ingesting a payload with extractable text
into a store without its table performs the embedding work once and
creates exactly one table; a second ingestion of the same payload
does no embedding work and leaves the store unchanged. -/
theorem c6_amended (f : String → List Int)
    (extract : List Nat → Option String) (st : WorkerState) (p : String)
    (hchunks : processPdf extract p ≠ [])
    (habsent : docTableName p ∉ tableNames st) :
    ∃ rows, ingestPdf (pureCompute f) extract st p =
        ({ st with docTables := st.docTables ++ [⟨docTableName p, rows⟩] },
          1, none) ∧
      ingestPdf (pureCompute f) extract
          { st with docTables := st.docTables ++ [⟨docTableName p, rows⟩] }
          p =
        ({ st with docTables := st.docTables ++ [⟨docTableName p, rows⟩] },
          0, none) := by
  have hemp : (processPdf extract p).isEmpty = false := by
    cases hc : processPdf extract p with
    | nil => exact absurd hc hchunks
    | cons a as => rfl
  refine ⟨(((processPdf extract p).map f).zip (processPdf extract p)).map
      (fun pr => (⟨pr.1, pr.2⟩ : DocRow)), ?_, ?_⟩
  · unfold ingestPdf
    rw [if_neg habsent]
    simp only [hemp, Bool.false_eq_true, if_false, pureCompute_embed]
  · unfold ingestPdf
    rw [if_pos (by simp [tableNames])]

/-- C6 witness: the amended statement at the payload AA==, the
two-word extraction and the length-vector embedder, starting from
the bare store. -/
theorem c6_amended_witness :
    processPdf (fun _ => some "hello world") "AA==" ≠ [] ∧
    docTableName "AA==" ∉ tableNames bareState ∧
    ∃ rows, ingestPdf (pureCompute lenEmbed) (fun _ => some "hello world")
        bareState "AA==" =
        ({ bareState with docTables := bareState.docTables ++
            [⟨docTableName "AA==", rows⟩] }, 1, none) ∧
      ingestPdf (pureCompute lenEmbed) (fun _ => some "hello world")
          { bareState with docTables := bareState.docTables ++
            [⟨docTableName "AA==", rows⟩] } "AA==" =
        ({ bareState with docTables := bareState.docTables ++
            [⟨docTableName "AA==", rows⟩] }, 0, none) :=
  ⟨by decide, by decide,
    c6_amended lenEmbed (fun _ => some "hello world") bareState "AA=="
      (by decide) (by decide)⟩

/-! ### Claim C9 -/

/-- C9 counterexample: an embedding failure during a `query_memory`
task is not propagated as a task-level error. With the table present
and the embedder failing, the embedding is attempted twice, both
attempts fail, and the task still answers with a success envelope
carrying the degraded fallback data. -/
theorem c9_counterexample :
    (queryMemoryBranch failEmbedCompute oneHitWeb "2024-01-01" seededState
      "q").resp = okResponse (RespBody.dataList
        ["[LIVE WEB] t1: b1",
          "Web Search Failed: embedding backend down"]) ∧
    (queryMemoryBranch failEmbedCompute oneHitWeb "2024-01-01" seededState
      "q").instr.embedCalls = 2 :=
  ⟨rfl, rfl⟩

lemma queryMemoryBranch_status (co : ComputeOracle) (web : WebOracle)
    (now : String) (st : WorkerState) (q : String) :
    (queryMemoryBranch co web now st q).resp.status = "success" := by
  unfold queryMemoryBranch
  repeat (first | rfl | split | dsimp only)

/-- C9 amended: whenever processing of a `generate` task — with or
without a pdf payload — reaches the generation call and that call
fails, the failure is propagated up as a task-level error response
carrying the diagnostic message, and the call is not retried:
exactly one generation attempt is made. A `query_memory` task, by
contrast, never produces an error envelope for any capability or
provider behavior: its embedding failures are degraded to the
live-fallback path inside a success response. -/
theorem c9_amended (E : List String → Except String (List (List Int)))
    (extract : List Nat → Option String) (st : WorkerState) (r : GenReq)
    (m : String) {rag : String} {st1 : WorkerState} {ec : Nat}
    (co2 : ComputeOracle) (web : WebOracle) (now q : String)
    (st2 : WorkerState)
    (hrag : ragStep ⟨E, fun _ _ _ => Except.error m⟩ extract st r =
      Except.ok (rag, st1, ec)) :
    (generateBranch ⟨E, fun _ _ _ => Except.error m⟩ extract st r).resp =
      errResponse m ∧
    (generateBranch ⟨E, fun _ _ _ =>
      Except.error m⟩ extract st r).instr.genCalls = 1 ∧
    (queryMemoryBranch co2 web now st2 q).resp.status = "success" := by
  unfold generateBranch
  rw [hrag]
  exact ⟨rfl, rfl, queryMemoryBranch_status co2 web now st2 q⟩

set_option maxRecDepth 8000 in
/-- C9 witness: the amended statement at a pdf-carrying generate
request whose RAG pipeline succeeds before the failing generation
call, and, for the degradation clause, at the failing-embedder
retrieval of the C9 counterexample scenario. -/
theorem c9_amended_witness :
    (generateBranch ⟨fun ts => Except.ok (ts.map lenEmbed), fun _ _ _ =>
        Except.error "compute backend gone"⟩ (fun _ => some "hello world")
      bareState ⟨"hi", 300, 0, some "AA=="⟩).resp =
      errResponse "compute backend gone" ∧
    (generateBranch ⟨fun ts => Except.ok (ts.map lenEmbed), fun _ _ _ =>
        Except.error "compute backend gone"⟩ (fun _ => some "hello world")
      bareState ⟨"hi", 300, 0, some "AA=="⟩).instr.genCalls = 1 ∧
    (queryMemoryBranch failEmbedCompute oneHitWeb "2024-01-01" seededState
      "q").resp.status = "success" :=
  c9_amended (fun ts => Except.ok (ts.map lenEmbed))
    (fun _ => some "hello world") bareState ⟨"hi", 300, 0, some "AA=="⟩
    "compute backend gone" failEmbedCompute oneHitWeb "2024-01-01" "q"
    seededState rfl

end Oraculum

